import Mathlib

/-!
Shallow embedding of `src/src/comm.cpp` (class `async_comm::Comm`): the
chunked write pipeline, the read pipeline, the callback-dispatch loop and the
lifecycle/shutdown protocol, together with a small-step trace machine over
the handler functions.  The transport hooks (`do_async_read`,
`do_async_write`, `do_init`, `do_close`, `is_open`) are external
collaborators; their completions are modelled as trace events, and ghost
transcript fields (`issued`, `transferred`, `delivered`, `outstanding_writes`,
`read_armed`) record what is handed to them.
-/

set_option autoImplicit false
set_option linter.unusedVariables false

namespace AsyncComm

/-- Modelled from the spec: `WriteBuffer` (spec §3, OutboundChunk) is declared
in `comm.h`, which is absent from the sources; it owns a byte payload and a
write cursor `pos` with invariant `pos ≤ len(payload)`.  Bytes are `Nat`. -/
structure WriteBuffer where
  data : List Nat
  pos : Nat
deriving DecidableEq

/-- Modelled from the spec: `nbytes()` is the number of unsent bytes of the
chunk, `len(payload) - pos`. -/
def WriteBuffer.nbytes (b : WriteBuffer) : Nat := b.data.length - b.pos

/-- Modelled from the spec: the unsent remainder `payload[pos:]`, i.e. the
byte range `(dpos(), nbytes())` handed to the transport write hook. -/
def WriteBuffer.remainder (b : WriteBuffer) : List Nat := b.data.drop b.pos

/-- Modelled from the spec: `ReadBuffer` (spec §3, InboundChunk) from
`comm.h`: a copy of the received bytes together with their count (the count
is the length of the list). -/
structure ReadBuffer where
  data : List Nat
deriving DecidableEq

/-- State of one `Comm` object.  The first group of fields are the member
variables of the class (queues and flags, plus `transport_open` for the
transport's `is_open()` and the three `std::thread` members as joinability
flags); the second group are ghost observation fields: `read_armed` (a
`do_async_read` is outstanding), `outstanding_writes` (number of
`do_async_write` calls not yet completed), `issued` (buffers passed to
`do_async_write`, in issue order), `transferred` (per successful write
completion, the bytes the transport acknowledged), `delivered` (payloads the
callback loop passed to `receive_callback_`, in invocation order). -/
structure CommState where
  write_queue : List WriteBuffer
  write_in_progress : Bool
  read_queue : List ReadBuffer
  new_data : Bool
  error : Bool
  shutdown_req : Bool
  callback_shutdown : Bool
  transport_open : Bool
  main_joinable : Bool
  io_joinable : Bool
  callback_joinable : Bool
  read_armed : Bool
  outstanding_writes : Nat
  issued : List (List Nat)
  transferred : List (List Nat)
  delivered : List (List Nat)
deriving DecidableEq

/-- The state after `Comm::Comm()`: all flags false, all queues empty. -/
def initState : CommState where
  write_queue := []
  write_in_progress := false
  read_queue := []
  new_data := false
  error := false
  shutdown_req := false
  callback_shutdown := false
  transport_open := false
  main_joinable := false
  io_joinable := false
  callback_joinable := false
  read_armed := false
  outstanding_writes := 0
  issued := []
  transferred := []
  delivered := []

/-- Fuel-indexed body of the chunking loop of `Comm::send_bytes`
(comm.cpp:82-86): each iteration takes a slice of at most `N` bytes and
recurses on the rest; one unit of fuel per iteration (the loop advances by
`N ≥ 1` bytes per iteration, so `src.length` fuel always suffices). -/
def chunkifyF : Nat → Nat → List Nat → List (List Nat)
  | 0, _, _ => []
  | fuel + 1, N, src =>
    if N = 0 then []
    else if src = [] then []
    else src.take N :: chunkifyF fuel N (src.drop N)

/-- The chunking loop of `Comm::send_bytes` (comm.cpp:82-86): slices of at
most `N` bytes, in payload order.  `N` models the `WRITE_BUFFER_SIZE`
constant from `comm.h` (spec §3: the fixed maximum chunk size); the source
loop does not terminate for `N = 0`, which we map to the empty result. -/
def chunkify (N : Nat) (src : List Nat) : List (List Nat) :=
  chunkifyF src.length N src

/-- `Comm::async_write` (comm.cpp:130-146): if `check_write_state` and a
write is in progress, return; if the queue is empty, return; otherwise mark
in-progress and hand the front chunk's remainder to `do_async_write`. -/
def async_write (check_write_state : Bool) (st : CommState) : CommState :=
  if check_write_state && st.write_in_progress then st
  else
    match st.write_queue with
    | [] => st
    | b :: _ =>
      { st with write_in_progress := true,
                outstanding_writes := st.outstanding_writes + 1,
                issued := st.issued ++ [b.remainder] }

/-- `Comm::send_bytes` (comm.cpp:78-89): append the chunks of the payload to
the write queue, then `async_write(true)`. -/
def send_bytes (N : Nat) (src : List Nat) (st : CommState) : CommState :=
  async_write true
    { st with
        write_queue := st.write_queue ++ (chunkify N src).map (fun c => ⟨c, 0⟩) }

/-- `Comm::async_write_end` (comm.cpp:148-179).  The completion retires one
outstanding write.  On error: set `error_`, notify the supervisor, return.
Otherwise: if the queue is empty, clear `write_in_progress_` and return;
else advance the front buffer's `pos` by `bytes_transferred` (recording the
acknowledged bytes in the ghost transcript), pop it once fully sent, and
either clear `write_in_progress_` (queue empty) or `async_write(false)`. -/
def async_write_end (err : Bool) (bytes_transferred : Nat) (st0 : CommState) :
    CommState :=
  let st := { st0 with outstanding_writes := st0.outstanding_writes - 1 }
  if err then { st with error := true }
  else
    match st.write_queue with
    | [] => { st with write_in_progress := false }
    | b :: rest =>
      let b' : WriteBuffer := { b with pos := b.pos + bytes_transferred }
      let q' := if b'.nbytes = 0 then rest else b' :: rest
      let st' := { st with
                     write_queue := q',
                     transferred :=
                       st.transferred ++ [b.remainder.take bytes_transferred] }
      if q'.isEmpty then { st' with write_in_progress := false }
      else async_write false st'

/-- `Comm::async_read` (comm.cpp:96-105): if the transport is open, arm a
read on the shared scratch buffer (`do_async_read`). -/
def async_read (st : CommState) : CommState :=
  if st.transport_open then { st with read_armed := true } else st

/-- `Comm::async_read_end` (comm.cpp:107-128).  The completion retires the
outstanding read.  On error: set `error_`, notify the supervisor, return
without re-arming.  On success: copy the received bytes into a new
`ReadBuffer` appended to the read queue under the callback lock, set
`new_data_`, notify the callback thread, then `async_read()` again. -/
def async_read_end (err : Bool) (bytes : List Nat) (st0 : CommState) :
    CommState :=
  let st := { st0 with read_armed := false }
  if err then { st with error := true }
  else
    async_read
      { st with read_queue := st.read_queue ++ [⟨bytes⟩], new_data := true }

/-- One wake-up of the `Comm::process_callbacks` loop (comm.cpp:219-245),
entered when `new_data_ || callback_shutdown_` holds: if shutdown was
requested the loop exits (state untouched); otherwise the whole read queue
is spliced into the local list, `new_data_` is cleared, the lock released,
and the callback invoked front-to-back on every spliced buffer. -/
def process_callbacks_iter (st : CommState) : CommState :=
  if st.callback_shutdown then st
  else
    { st with
        delivered := st.delivered ++ st.read_queue.map ReadBuffer.data,
        read_queue := [],
        new_data := false }

/-- Events of the trace machine: an owner call to `send_bytes`, a write
completion delivered by the transport, a read completion delivered by the
transport, one wake-up of the callback thread. -/
inductive Ev where
  | send (bytes : List Nat)
  | wcomplete (err : Bool) (n : Nat)
  | rcomplete (err : Bool) (bytes : List Nat)
  | cbIter
deriving DecidableEq

/-- One step of the machine: dispatch the event to the handler it models. -/
def step (N : Nat) (st : CommState) : Ev → CommState
  | .send bs => send_bytes N bs st
  | .wcomplete err n => async_write_end err n st
  | .rcomplete err bs => async_read_end err bs st
  | .cbIter => process_callbacks_iter st

/-- Run a trace of events from a state. -/
def runTrace (N : Nat) (st : CommState) : List Ev → CommState
  | [] => st
  | e :: tr => runTrace N (step N st e) tr

/-- Whether an event can fire in a state: a write completion needs an
outstanding write and (on success) reports at most the handed-over byte
count; a read completion needs an armed read; a callback wake-up needs the
condition `new_data_ || callback_shutdown_` of its condition variable. -/
def evOk (st : CommState) : Ev → Bool
  | .send _ => true
  | .wcomplete err n =>
      decide (1 ≤ st.outstanding_writes) &&
      (err || match st.write_queue with
              | [] => true
              | b :: _ => decide (n ≤ b.nbytes))
  | .rcomplete _ _ => st.read_armed
  | .cbIter => st.new_data || st.callback_shutdown

/-- A trace each of whose events can fire in the state it meets. -/
def traceOk (N : Nat) (st : CommState) : List Ev → Bool
  | [] => true
  | e :: tr => evOk st e && traceOk N (step N st e) tr

/-- Like `evOk`, but write completions are error-free and full: the
transport acknowledges exactly the handed-over byte count (the behaviour of
a composed asynchronous write). -/
def goodWriteEv (st : CommState) : Ev → Bool
  | .wcomplete err n =>
      !err && decide (1 ≤ st.outstanding_writes) &&
      (match st.write_queue with
       | [] => false
       | b :: _ => decide (n = b.nbytes))
  | e => evOk st e

/-- A trace whose write completions are error-free and full. -/
def goodTrace (N : Nat) (st : CommState) : List Ev → Bool
  | [] => true
  | e :: tr => goodWriteEv st e && goodTrace N (step N st e) tr

/-- Concatenation of the payloads handed to `send_bytes`, in call order. -/
def sentBytes : List Ev → List Nat
  | [] => []
  | .send bs :: tr => bs ++ sentBytes tr
  | _ :: tr => sentBytes tr

/-- Payloads of the successful read completions, in completion order. -/
def receivedPayloads : List Ev → List (List Nat)
  | [] => []
  | .rcomplete false bs :: tr => bs :: receivedPayloads tr
  | _ :: tr => receivedPayloads tr

/-- All bytes still unsent in the write queue, front to back. -/
def pendingBytes (st : CommState) : List Nat :=
  (st.write_queue.map WriteBuffer.remainder).flatten

/-- The state after `do_init()` succeeded: the transport is open. -/
def openedState : CommState := { initState with transport_open := true }

/-- The state once `Comm::run` has armed the first read (comm.cpp:185) on
the open transport. -/
def runningState : CommState := async_read openedState

/-- Primitive actions of the read-completion handler, in the order the
statements of `Comm::async_read_end` and `Comm::async_read` execute them. -/
inductive RAct where
  | log_error
  | set_error
  | notify_main
  | copy_enqueue (bytes : List Nat)
  | set_new_data
  | notify_callback
  | arm_read
deriving DecidableEq

/-- Statement order of `Comm::async_read` (comm.cpp:96-105): check
`is_open()`, then hand the scratch buffer to `do_async_read`. -/
def async_read_actions (is_open : Bool) : List RAct :=
  if is_open then [.arm_read] else []

/-- Statement order of `Comm::async_read_end` (comm.cpp:107-128): on error,
log, set `error_` under the main lock and notify the supervisor; on
success, copy the scratch-buffer bytes into a fresh `ReadBuffer` appended
to the read queue under the callback lock, set `new_data_`, notify the
callback thread, then call `async_read()`. -/
def async_read_end_actions (err : Bool) (is_open : Bool) (bytes : List Nat) :
    List RAct :=
  if err then [.log_error, .set_error, .notify_main]
  else [.copy_enqueue bytes, .set_new_data, .notify_callback]
         ++ async_read_actions is_open

/-- Primitive actions of the write-completion handler, in the order the
statements of `Comm::async_write_end` execute them. -/
inductive WAct where
  | log_error
  | set_error
  | notify_main
  | clear_in_progress
  | advance_front
  | pop_front
  | kick_next
deriving DecidableEq

/-- Statement order of `Comm::async_write_end` (comm.cpp:148-179): on
error, log, set `error_` under the main lock and notify the supervisor
(comm.cpp:152-157); on success under the write lock: if the queue is empty
clear `write_in_progress_`; otherwise advance the front buffer's cursor,
pop it when fully sent, and either clear `write_in_progress_` (queue now
empty) or kick the next write via `async_write(false)`. -/
def async_write_end_actions (err : Bool) (n : Nat) (st : CommState) :
    List WAct :=
  if err then [.log_error, .set_error, .notify_main]
  else
    match st.write_queue with
    | [] => [.clear_in_progress]
    | b :: rest =>
      let b' : WriteBuffer := { b with pos := b.pos + n }
      let q' := if b'.nbytes = 0 then rest else b' :: rest
      [.advance_front]
        ++ (if b'.nbytes = 0 then [.pop_front] else [])
        ++ (if q'.isEmpty then [.clear_in_progress] else [.kick_next])

/-- Primitive actions of one `Comm::process_callbacks` wake-up. -/
inductive CAct where
  | exit_loop
  | splice_queue
  | clear_new_data
  | unlock_cb_lock
  | invoke_cb (bytes : List Nat)
deriving DecidableEq

/-- Statement order of one `Comm::process_callbacks` wake-up
(comm.cpp:223-244): if shutdown was requested, exit the loop; otherwise
splice the whole read queue into the local list, clear `new_data_`, unlock
the callback mutex, and invoke the callback once per spliced buffer,
front to back. -/
def process_callbacks_iter_actions (st : CommState) : List CAct :=
  if st.callback_shutdown then [.exit_loop]
  else [.splice_queue, .clear_new_data, .unlock_cb_lock]
         ++ st.read_queue.map (fun b => CAct.invoke_cb b.data)

/-- Primitive actions of the lifecycle functions `Comm::init`,
`Comm::close`, `Comm::run` and `Comm::shutdown`. -/
inductive LAct where
  | transport_open_hook
  | start_main_thread
  | start_callback_thread
  | arm_first_read
  | start_io_thread
  | wait_terminal
  | stop_event_loop
  | transport_close
  | set_callback_shutdown
  | notify_callback_thread
  | join_io_thread
  | join_callback_thread
  | set_shutdown_req
  | notify_main_thread
  | join_main_thread
deriving DecidableEq

/-- Statement order of `Comm::run` (comm.cpp:181-213): start the callback
thread, arm the first read, start the io thread, block until
`error_ || shutdown_`; on wake: stop the event loop, set
`callback_shutdown_` under the callback lock and notify the callback
thread, then join the io thread and the callback thread, each only if
joinable. -/
def run_actions (io_joinable cb_joinable : Bool) : List LAct :=
  [.start_callback_thread, .arm_first_read, .start_io_thread, .wait_terminal,
   .stop_event_loop, .set_callback_shutdown, .notify_callback_thread]
  ++ (if io_joinable then [.join_io_thread] else [])
  ++ (if cb_joinable then [.join_callback_thread] else [])

/-- `Comm::init` (comm.cpp:61-69): call the transport's `do_init()`
(outcome passed in as `do_init_ok`); on failure return `false` with the
state untouched and no thread started; on success start the supervisor
(main) thread and return `true`. -/
def Comm_init (do_init_ok : Bool) (st : CommState) : Bool × CommState :=
  if do_init_ok then
    (true, { st with transport_open := true, main_joinable := true })
  else (false, st)

/-- `Comm::shutdown` (comm.cpp:248-260): set `shutdown_` under the main
lock, notify the supervisor, and join the main thread only if it is
joinable.  Returns the new state and the actions performed. -/
def Comm_shutdown (st : CommState) : CommState × List LAct :=
  let st1 := { st with shutdown_req := true }
  if st1.main_joinable then
    ({ st1 with main_joinable := false },
     [.set_shutdown_req, .notify_main_thread, .join_main_thread])
  else (st1, [.set_shutdown_req, .notify_main_thread])

/-- `Comm::close` (comm.cpp:71-76): stop the event loop, call the
transport's `do_close()`, then `shutdown()`. -/
def Comm_close (st : CommState) : CommState × List LAct :=
  let p := Comm_shutdown { st with transport_open := false }
  (p.1, [.stop_event_loop, .transport_close] ++ p.2)

/-- Invariant of the write pipeline under error-free, full write
completions: every queued chunk's cursor is in range; when idle the queue
is empty, no write is outstanding and every issued buffer has been fully
acknowledged; when busy exactly the front chunk's remainder is the one
issued-but-unacknowledged buffer. -/
def WInv (st : CommState) : Prop :=
  (∀ b ∈ st.write_queue, b.pos ≤ b.data.length) ∧
  (st.write_in_progress = false →
    st.write_queue = [] ∧ st.outstanding_writes = 0 ∧
    st.issued = st.transferred) ∧
  (st.write_in_progress = true →
    st.outstanding_writes ≤ 1 ∧
    ∃ b rest, st.write_queue = b :: rest ∧
      st.issued = st.transferred ++ [b.remainder])

/-- Invariant bounding the number of outstanding `do_async_write`
operations in any valid trace (also across transport errors). -/
def OInv (st : CommState) : Prop :=
  (st.write_in_progress = false → st.outstanding_writes = 0) ∧
  st.outstanding_writes ≤ 1

theorem chunkifyF_fuel_irrel :
    ∀ (f1 f2 N : Nat) (src : List Nat), src.length ≤ f1 → src.length ≤ f2 →
      chunkifyF f1 N src = chunkifyF f2 N src := by
  intro f1
  induction f1 with
  | zero =>
    intro f2 N src h1 h2
    have hs : src = [] := List.eq_nil_of_length_eq_zero (Nat.le_zero.mp h1)
    subst hs
    cases f2 with
    | zero => rfl
    | succ f2 => simp [chunkifyF]
  | succ f1 ih =>
    intro f2 N src h1 h2
    cases f2 with
    | zero =>
      have hs : src = [] := List.eq_nil_of_length_eq_zero (Nat.le_zero.mp h2)
      subst hs
      simp [chunkifyF]
    | succ f2 =>
      by_cases hN : N = 0
      · simp [chunkifyF, hN]
      · by_cases hs : src = []
        · simp [chunkifyF, hs]
        · have hlen : 0 < src.length := List.length_pos.mpr hs
          have hd1 : (src.drop N).length ≤ f1 := by
            simp only [List.length_drop]; omega
          have hd2 : (src.drop N).length ≤ f2 := by
            simp only [List.length_drop]; omega
          simp only [chunkifyF, if_neg hN, if_neg hs]
          rw [ih f2 N (src.drop N) hd1 hd2]

theorem chunkify_nil (N : Nat) : chunkify N [] = [] := rfl

theorem chunkify_cons (N : Nat) (src : List Nat) (hN : 0 < N)
    (hs : src ≠ []) :
    chunkify N src = src.take N :: chunkify N (src.drop N) := by
  unfold chunkify
  obtain ⟨k, hk⟩ : ∃ k, src.length = k + 1 := by
    have := List.length_pos.mpr hs
    exact ⟨src.length - 1, by omega⟩
  rw [hk]
  have hN0 : ¬ N = 0 := by omega
  simp only [chunkifyF, if_neg hN0, if_neg hs]
  congr 1
  apply chunkifyF_fuel_irrel
  · simp only [List.length_drop]; omega
  · simp only [List.length_drop]; omega

theorem chunkify_induction (N : Nat) (hN : 0 < N) (P : List Nat → Prop)
    (h0 : P [])
    (hstep : ∀ src, src ≠ [] → P (src.drop N) → P src) :
    ∀ src, P src := by
  suffices h : ∀ fuel src, src.length ≤ fuel → P src from
    fun src => h src.length src Nat.le.refl
  intro fuel
  induction fuel with
  | zero =>
    intro src h
    rw [List.eq_nil_of_length_eq_zero (Nat.le_zero.mp h)]
    exact h0
  | succ fuel ih =>
    intro src h
    by_cases hs : src = []
    · rw [hs]; exact h0
    · refine hstep src hs (ih _ ?_)
      have hpos := List.length_pos.mpr hs
      simp only [List.length_drop]
      omega

theorem chunkify_flatten (N : Nat) (hN : 0 < N) :
    ∀ src : List Nat, (chunkify N src).flatten = src := by
  refine chunkify_induction N hN _ (by simp [chunkify_nil]) ?_
  intro src hs ih
  rw [chunkify_cons N src hN hs]
  simp [ih]

theorem chunkify_eq_nil_iff (N : Nat) (src : List Nat) (hN : 0 < N) :
    chunkify N src = [] ↔ src = [] := by
  constructor
  · intro h
    by_contra hs
    rw [chunkify_cons N src hN hs] at h
    exact List.cons_ne_nil _ _ h
  · intro h; rw [h]; exact chunkify_nil N

theorem chunkify_length (N : Nat) (hN : 0 < N) :
    ∀ src : List Nat, (chunkify N src).length = (src.length + N - 1) / N := by
  refine chunkify_induction N hN _ ?_ ?_
  · rw [chunkify_nil]
    simp only [List.length_nil]
    rw [Nat.div_eq_of_lt (by omega)]
  · intro src hs ih
    rw [chunkify_cons N src hN hs]
    simp only [List.length_cons, ih, List.length_drop]
    have hpos : 0 < src.length := List.length_pos.mpr hs
    have hr : src.length + N - 1 = (src.length - 1) + N := by omega
    rw [hr, Nat.add_div_right _ hN]
    by_cases hle : src.length ≤ N
    · have h1 : src.length - N = 0 := by omega
      rw [h1]
      simp only [Nat.zero_add]
      rw [Nat.div_eq_of_lt (by omega), Nat.div_eq_of_lt (by omega)]
    · have h2 : src.length - N + N - 1 = (src.length - 1 - N) + N := by omega
      rw [h2, Nat.add_div_right _ hN]
      rw [Nat.div_eq_sub_div hN (by omega : N ≤ src.length - 1)]

theorem chunkify_mem_size (N : Nat) (hN : 0 < N) :
    ∀ src : List Nat, ∀ c ∈ chunkify N src, 0 < c.length ∧ c.length ≤ N := by
  refine chunkify_induction N hN _ (by simp [chunkify_nil]) ?_
  intro src hs ih c hc
  rw [chunkify_cons N src hN hs] at hc
  simp only [List.mem_cons] at hc
  rcases hc with hc | hc
  · subst hc
    have hpos : 0 < src.length := List.length_pos.mpr hs
    constructor
    · simp only [List.length_take]; omega
    · simp only [List.length_take]; omega
  · exact ih c hc

theorem chunkify_dropLast_size (N : Nat) (hN : 0 < N) :
    ∀ src : List Nat, ∀ c ∈ (chunkify N src).dropLast, c.length = N := by
  refine chunkify_induction N hN _ (by simp [chunkify_nil]) ?_
  intro src hs ih c hc
  rw [chunkify_cons N src hN hs] at hc
  rcases hrec : chunkify N (src.drop N) with _ | ⟨d, ds⟩
  · rw [hrec] at hc
    simp at hc
  · rw [hrec] at hc
    rw [List.dropLast_cons_of_ne_nil (by simp)] at hc
    simp only [List.mem_cons] at hc
    rcases hc with hc | hc
    · subst hc
      have hdrop : src.drop N ≠ [] := by
        intro h
        rw [h, chunkify_nil] at hrec
        exact List.cons_ne_nil _ _ hrec.symm
      have hlen : N < src.length := by
        by_contra h
        exact hdrop (List.drop_eq_nil_of_le (by omega))
      simp only [List.length_take]
      omega
    · rw [← hrec] at hc
      exact ih c hc

theorem async_write_shape (c : Bool) (st : CommState) :
    ∃ wip ow iss, async_write c st =
      { st with write_in_progress := wip, outstanding_writes := ow,
                issued := iss } := by
  cases st
  unfold async_write
  dsimp only
  split
  · exact ⟨_, _, _, rfl⟩
  · split
    · exact ⟨_, _, _, rfl⟩
    · exact ⟨_, _, _, rfl⟩

theorem send_bytes_shape (N : Nat) (src : List Nat) (st : CommState) :
    ∃ wq wip ow iss, send_bytes N src st =
      { st with write_queue := wq, write_in_progress := wip,
                outstanding_writes := ow, issued := iss } := by
  unfold send_bytes
  obtain ⟨wip, ow, iss, h⟩ := async_write_shape true
    { st with write_queue :=
        st.write_queue ++ (chunkify N src).map (fun c => ⟨c, 0⟩) }
  rw [h]
  exact ⟨_, _, _, _, rfl⟩

theorem async_write_end_shape (err : Bool) (n : Nat) (st : CommState) :
    ∃ q wip ow iss trf e, async_write_end err n st =
      { st with write_queue := q, write_in_progress := wip,
                outstanding_writes := ow, issued := iss,
                transferred := trf, error := e } := by
  cases st
  unfold async_write_end
  dsimp only
  split
  · exact ⟨_, _, _, _, _, _, rfl⟩
  · split
    · exact ⟨_, _, _, _, _, _, rfl⟩
    · split <;> split
      all_goals
        first
          | exact ⟨_, _, _, _, _, _, rfl⟩
          | (obtain ⟨wip, ow, iss, h⟩ := async_write_shape false _
             rw [h]
             exact ⟨_, _, _, _, _, _, rfl⟩)

theorem async_read_shape (st : CommState) :
    ∃ ra, async_read st = { st with read_armed := ra } := by
  cases st
  unfold async_read
  dsimp only
  split
  · exact ⟨_, rfl⟩
  · exact ⟨_, rfl⟩

theorem async_read_end_shape (err : Bool) (bytes : List Nat)
    (st : CommState) :
    ∃ rq nd ra e, async_read_end err bytes st =
      { st with read_queue := rq, new_data := nd, read_armed := ra,
                error := e } := by
  cases st
  unfold async_read_end
  dsimp only
  split
  · exact ⟨_, _, _, _, rfl⟩
  · obtain ⟨ra, h⟩ := async_read_shape _
    rw [h]
    exact ⟨_, _, _, _, rfl⟩

theorem process_callbacks_iter_shape (st : CommState) :
    ∃ d rq nd, process_callbacks_iter st =
      { st with delivered := d, read_queue := rq, new_data := nd } := by
  cases st
  unfold process_callbacks_iter
  dsimp only
  split
  · exact ⟨_, _, _, rfl⟩
  · exact ⟨_, _, _, rfl⟩

theorem async_write_write_queue (c : Bool) (st : CommState) :
    (async_write c st).write_queue = st.write_queue := by
  obtain ⟨wip, ow, iss, h⟩ := async_write_shape c st
  rw [h]

theorem async_write_nil (c : Bool) (st : CommState)
    (hq : st.write_queue = []) : async_write c st = st := by
  simp [async_write, hq]

theorem async_write_busy (st : CommState)
    (hw : st.write_in_progress = true) : async_write true st = st := by
  simp [async_write, hw]

theorem async_write_go (c : Bool) (st : CommState) (b : WriteBuffer)
    (rest : List WriteBuffer) (hq : st.write_queue = b :: rest)
    (hcond : (c && st.write_in_progress) = false) :
    async_write c st =
      { st with write_in_progress := true,
                outstanding_writes := st.outstanding_writes + 1,
                issued := st.issued ++ [b.remainder] } := by
  simp [async_write, hq, hcond]

theorem async_write_end_err_eq (n : Nat) (st : CommState) :
    async_write_end true n st =
      { st with outstanding_writes := st.outstanding_writes - 1,
                error := true } := by
  simp [async_write_end]

theorem async_write_end_nil_eq (n : Nat) (st : CommState)
    (hq : st.write_queue = []) :
    async_write_end false n st =
      { st with write_in_progress := false,
                outstanding_writes := st.outstanding_writes - 1 } := by
  simp [async_write_end, hq]

theorem async_write_end_done_last (n : Nat) (st : CommState)
    (b : WriteBuffer) (hq : st.write_queue = [b])
    (hn : b.data.length ≤ b.pos + n) :
    async_write_end false n st =
      { st with write_queue := [], write_in_progress := false,
                outstanding_writes := st.outstanding_writes - 1,
                transferred := st.transferred ++ [b.remainder.take n] } := by
  simp [async_write_end, hq, WriteBuffer.nbytes, Nat.sub_eq_zero_iff_le, hn]

theorem async_write_end_done_more (n : Nat) (st : CommState)
    (b c : WriteBuffer) (cs : List WriteBuffer)
    (hq : st.write_queue = b :: c :: cs)
    (hn : b.data.length ≤ b.pos + n) :
    async_write_end false n st =
      { st with write_queue := c :: cs, write_in_progress := true,
                outstanding_writes := st.outstanding_writes - 1 + 1,
                issued := st.issued ++ [c.remainder],
                transferred := st.transferred ++ [b.remainder.take n] } := by
  simp [async_write_end, async_write, hq, WriteBuffer.nbytes,
    Nat.sub_eq_zero_iff_le, hn]

theorem async_write_end_mid_chunk (n : Nat) (st : CommState)
    (b : WriteBuffer) (rest : List WriteBuffer)
    (hq : st.write_queue = b :: rest) (hn : b.pos + n < b.data.length) :
    async_write_end false n st =
      { st with
          write_queue := { b with pos := b.pos + n } :: rest,
          write_in_progress := true,
          outstanding_writes := st.outstanding_writes - 1 + 1,
          issued :=
            st.issued ++ [WriteBuffer.remainder { b with pos := b.pos + n }],
          transferred := st.transferred ++ [b.remainder.take n] } := by
  have hn0 : ¬ b.data.length - (b.pos + n) = 0 := by omega
  simp [async_write_end, async_write, hq, WriteBuffer.nbytes, hn0]

theorem OInv_send_bytes (N : Nat) (bs : List Nat) (st : CommState)
    (h : OInv st) : OInv (send_bytes N bs st) := by
  obtain ⟨h1, h2⟩ := h
  obtain ⟨wq, wip, rq, nd, e, sr, cbs, topen, mj, ioj, cj, ra, ow, iss, trf, d⟩
    := st
  simp only at h1 h2
  cases wip with
  | true =>
    simp only [send_bytes, async_write, OInv]
    simp only [Bool.and_self, if_true]
    exact ⟨fun h' => absurd h' (by simp), h2⟩
  | false =>
    have how : ow = 0 := h1 rfl
    subst how
    rcases hq : wq ++ (chunkify N bs).map (fun c => (⟨c, 0⟩ : WriteBuffer))
      with _ | ⟨b, rest⟩
    · simp [send_bytes, async_write, hq, OInv]
    · simp [send_bytes, async_write, hq, OInv]

theorem OInv_async_write_end (err : Bool) (n : Nat) (st : CommState)
    (h : OInv st) (hout : 1 ≤ st.outstanding_writes) :
    OInv (async_write_end err n st) := by
  obtain ⟨h1, h2⟩ := h
  have how : st.outstanding_writes = 1 := Nat.le_antisymm h2 hout
  cases err with
  | true =>
    rw [async_write_end_err_eq]
    constructor
    · intro _
      show st.outstanding_writes - 1 = 0
      omega
    · show st.outstanding_writes - 1 ≤ 1
      omega
  | false =>
    rcases hq : st.write_queue with _ | ⟨b, rest⟩
    · rw [async_write_end_nil_eq n st hq]
      exact ⟨fun _ => by show st.outstanding_writes - 1 = 0; omega,
        by show st.outstanding_writes - 1 ≤ 1; omega⟩
    · by_cases hn : b.data.length ≤ b.pos + n
      · cases rest with
        | nil =>
          rw [async_write_end_done_last n st b hq hn]
          exact ⟨fun _ => by show st.outstanding_writes - 1 = 0; omega,
            by show st.outstanding_writes - 1 ≤ 1; omega⟩
        | cons c cs =>
          rw [async_write_end_done_more n st b c cs hq hn]
          constructor
          · intro h'
            simp at h'
          · show st.outstanding_writes - 1 + 1 ≤ 1
            omega
      · rw [async_write_end_mid_chunk n st b rest hq (by omega)]
        constructor
        · intro h'
          simp at h'
        · show st.outstanding_writes - 1 + 1 ≤ 1
          omega

theorem OInv_of_write_fields_eq (st st' : CommState)
    (hw : st'.write_in_progress = st.write_in_progress)
    (ho : st'.outstanding_writes = st.outstanding_writes)
    (h : OInv st) : OInv st' := by
  obtain ⟨h1, h2⟩ := h
  exact ⟨fun h' => by rw [ho]; exact h1 (hw ▸ h'), by rw [ho]; exact h2⟩

theorem OInv_step (N : Nat) (st : CommState) (e : Ev)
    (hok : evOk st e = true) (h : OInv st) : OInv (step N st e) := by
  cases e with
  | send bs => exact OInv_send_bytes N bs st h
  | wcomplete err n =>
    have hout : 1 ≤ st.outstanding_writes := by
      simp only [evOk, Bool.and_eq_true, decide_eq_true_eq] at hok
      exact hok.1
    exact OInv_async_write_end err n st h hout
  | rcomplete err bs =>
    obtain ⟨rq, nd, ra, e', hsh⟩ := async_read_end_shape err bs st
    refine OInv_of_write_fields_eq st _ ?_ ?_ h <;>
      simp only [step] <;> rw [hsh]
  | cbIter =>
    obtain ⟨d, rq, nd, hsh⟩ := process_callbacks_iter_shape st
    refine OInv_of_write_fields_eq st _ ?_ ?_ h <;>
      simp only [step] <;> rw [hsh]

theorem OInv_runTrace (N : Nat) :
    ∀ (tr : List Ev) (st : CommState), traceOk N st tr = true → OInv st →
      OInv (runTrace N st tr) := by
  intro tr
  induction tr with
  | nil => intro st _ h; exact h
  | cons e tr ih =>
    intro st hok h
    simp only [traceOk, Bool.and_eq_true] at hok
    exact ih (step N st e) hok.2 (OInv_step N st e hok.1 h)

theorem remainder_mk_zero (c : List Nat) :
    WriteBuffer.remainder ⟨c, 0⟩ = c := by
  simp [WriteBuffer.remainder]

theorem pend_chunks (N : Nat) (hN : 0 < N) (bs : List Nat) :
    (((chunkify N bs).map (fun c => (⟨c, 0⟩ : WriteBuffer))).map
        WriteBuffer.remainder).flatten = bs := by
  rw [List.map_map]
  have hcomp : (WriteBuffer.remainder ∘ fun c => (⟨c, 0⟩ : WriteBuffer))
      = id := by
    funext c
    simp [WriteBuffer.remainder]
  rw [hcomp, List.map_id]
  exact chunkify_flatten N hN bs

theorem WInv_send (N : Nat) (hN : 0 < N) (bs : List Nat) (st : CommState)
    (h : WInv st) :
    WInv (send_bytes N bs st) ∧
    (send_bytes N bs st).transferred = st.transferred ∧
    pendingBytes (send_bytes N bs st) = pendingBytes st ++ bs := by
  obtain ⟨h1, h2, h3⟩ := h
  have hq : (send_bytes N bs st).write_queue
      = st.write_queue ++ (chunkify N bs).map (fun c => ⟨c, 0⟩) := by
    unfold send_bytes
    rw [async_write_write_queue]
  have htrf : (send_bytes N bs st).transferred = st.transferred := by
    obtain ⟨wq, wip, ow, iss, hsh⟩ := send_bytes_shape N bs st
    rw [hsh]
  have hpend : pendingBytes (send_bytes N bs st) = pendingBytes st ++ bs := by
    unfold pendingBytes
    rw [hq]
    simp only [List.map_append, List.flatten_append]
    rw [pend_chunks N hN bs]
  refine ⟨?_, htrf, hpend⟩
  cases hw : st.write_in_progress with
  | true =>
    have hbusy : send_bytes N bs st
        = { st with write_queue :=
              st.write_queue ++ (chunkify N bs).map (fun c => ⟨c, 0⟩) } := by
      unfold send_bytes
      exact async_write_busy _ hw
    rw [hbusy]
    obtain ⟨how, b0, rest0, hq0, hiss0⟩ := h3 hw
    refine ⟨?_, ?_, ?_⟩
    · intro b hb
      have hb' : b ∈ st.write_queue
          ++ (chunkify N bs).map (fun c => (⟨c, 0⟩ : WriteBuffer)) := hb
      rcases List.mem_append.mp hb' with hb'' | hb''
      · exact h1 b hb''
      · obtain ⟨c, _, rfl⟩ := List.mem_map.mp hb''
        simp
    · intro h'
      simp only at h'
      rw [hw] at h'
      cases h'
    · intro _
      refine ⟨how, b0, rest0 ++ (chunkify N bs).map (fun c => ⟨c, 0⟩), ?_, ?_⟩
      · show st.write_queue ++ _ = _
        rw [hq0, List.cons_append]
      · exact hiss0
  | false =>
    obtain ⟨hq0, how, hiss0⟩ := h2 hw
    rcases hch : (chunkify N bs).map (fun c => (⟨c, 0⟩ : WriteBuffer))
      with _ | ⟨c0, cs⟩
    · have hnil : send_bytes N bs st
          = { st with write_queue :=
                st.write_queue ++ (chunkify N bs).map (fun c => ⟨c, 0⟩) } := by
        unfold send_bytes
        exact async_write_nil true _ (by simp [hq0, hch])
      rw [hnil]
      refine ⟨?_, ?_, ?_⟩
      · intro b hb
        have hb' : b ∈ st.write_queue
            ++ (chunkify N bs).map (fun c => (⟨c, 0⟩ : WriteBuffer)) := hb
        rw [hq0, hch] at hb'
        simp at hb'
      · intro _
        exact ⟨by show st.write_queue ++ _ = _; simp [hq0, hch], how, hiss0⟩
      · intro h'
        simp only at h'
        rw [hw] at h'
        cases h'
    · have hgo : send_bytes N bs st
          = { st with
                write_queue :=
                  st.write_queue ++ (chunkify N bs).map (fun c => ⟨c, 0⟩),
                write_in_progress := true,
                outstanding_writes := st.outstanding_writes + 1,
                issued := st.issued ++ [c0.remainder] } := by
        unfold send_bytes
        exact async_write_go true _ c0 cs (by simp [hq0, hch]) (by simp [hw])
      rw [hgo]
      refine ⟨?_, ?_, ?_⟩
      · intro b hb
        have hb' : b ∈ st.write_queue
            ++ (chunkify N bs).map (fun c => (⟨c, 0⟩ : WriteBuffer)) := hb
        rw [hq0, List.nil_append] at hb'
        obtain ⟨c, _, rfl⟩ := List.mem_map.mp hb'
        simp
      · intro h'
        simp at h'
      · intro _
        refine ⟨?_, c0, cs, ?_, ?_⟩
        · show st.outstanding_writes + 1 ≤ 1
          omega
        · show st.write_queue ++ _ = _
          simp [hq0, hch]
        · show st.issued ++ [c0.remainder] = st.transferred ++ [c0.remainder]
          rw [hiss0]

/-- C2: for every maximum chunk size `N > 0` and a single `send` of `M > N`
bytes, `send_bytes` appends exactly `⌈M/N⌉` chunks (cursor zero) to the
write queue, in payload order, each of size at most `N` (and non-empty),
all but possibly the last of size exactly `N`. -/
theorem claim_C2_send_chunking (N : Nat) (src : List Nat) (st : CommState)
    (hN : 0 < N) (hM : N < src.length) :
    (send_bytes N src st).write_queue
      = st.write_queue ++ (chunkify N src).map (fun c => ⟨c, 0⟩) ∧
    (chunkify N src).length = (src.length + N - 1) / N ∧
    (∀ c ∈ chunkify N src, 0 < c.length ∧ c.length ≤ N) ∧
    (∀ c ∈ (chunkify N src).dropLast, c.length = N) ∧
    (chunkify N src).flatten = src := by
  refine ⟨?_, chunkify_length N hN src, chunkify_mem_size N hN src,
    chunkify_dropLast_size N hN src, chunkify_flatten N hN src⟩
  unfold send_bytes
  rw [async_write_write_queue]

theorem claim_C2_send_chunking_witness :
    (0 < 2 ∧ 2 < ([5, 6, 7] : List Nat).length) ∧
    ((send_bytes 2 [5, 6, 7] initState).write_queue
      = initState.write_queue
          ++ (chunkify 2 [5, 6, 7]).map (fun c => ⟨c, 0⟩) ∧
     (chunkify 2 [5, 6, 7]).length
       = (([5, 6, 7] : List Nat).length + 2 - 1) / 2 ∧
     (∀ c ∈ chunkify 2 [5, 6, 7], 0 < c.length ∧ c.length ≤ 2) ∧
     (∀ c ∈ (chunkify 2 [5, 6, 7]).dropLast, c.length = 2) ∧
     (chunkify 2 [5, 6, 7]).flatten = [5, 6, 7]) :=
  ⟨⟨by decide, by decide⟩,
   claim_C2_send_chunking 2 [5, 6, 7] initState (by decide) (by decide)⟩

theorem WInv_wcomplete (n : Nat) (st : CommState) (h : WInv st)
    (hout : 1 ≤ st.outstanding_writes) (b : WriteBuffer)
    (rest : List WriteBuffer) (hq : st.write_queue = b :: rest)
    (hn : n = b.nbytes) :
    WInv (async_write_end false n st) ∧
    (async_write_end false n st).transferred.flatten
        ++ pendingBytes (async_write_end false n st)
      = st.transferred.flatten ++ pendingBytes st := by
  obtain ⟨h1, h2, h3⟩ := h
  have hwip : st.write_in_progress = true := by
    cases hwf : st.write_in_progress
    · obtain ⟨hq0, _, _⟩ := h2 hwf
      rw [hq0] at hq
      cases hq
    · rfl
  obtain ⟨how1, b0, rest0, hq0, hiss0⟩ := h3 hwip
  rw [hq] at hq0
  injection hq0 with hb hr
  subst hb
  subst hr
  have hpos : b.pos ≤ b.data.length :=
    h1 b (by rw [hq]; exact List.mem_cons_self _ _)
  have hfull : b.data.length ≤ b.pos + n := by
    rw [hn]
    unfold WriteBuffer.nbytes
    omega
  have htake : b.remainder.take n = b.remainder := by
    have hlen : b.remainder.length = n := by
      simp [WriteBuffer.remainder, hn, WriteBuffer.nbytes]
    rw [← hlen, List.take_length]
  have how : st.outstanding_writes = 1 := Nat.le_antisymm how1 hout
  cases rest with
  | nil =>
    rw [async_write_end_done_last n st b hq hfull]
    constructor
    · refine ⟨?_, ?_, ?_⟩
      · intro x hx
        simp at hx
      · intro _
        refine ⟨rfl, by show st.outstanding_writes - 1 = 0; omega, ?_⟩
        show st.issued = st.transferred ++ [b.remainder.take n]
        rw [htake]
        exact hiss0
      · intro h'
        simp at h'
    · simp [pendingBytes, hq, htake]
  | cons c cs =>
    rw [async_write_end_done_more n st b c cs hq hfull]
    constructor
    · refine ⟨?_, ?_, ?_⟩
      · intro x hx
        have hx' : x ∈ c :: cs := hx
        apply h1
        rw [hq]
        exact List.mem_cons_of_mem _ hx'
      · intro h'
        simp at h'
      · intro _
        refine ⟨by show st.outstanding_writes - 1 + 1 ≤ 1; omega,
          c, cs, rfl, ?_⟩
        show st.issued ++ [c.remainder]
          = (st.transferred ++ [b.remainder.take n]) ++ [c.remainder]
        rw [htake, hiss0]
    · simp [pendingBytes, hq, htake]

theorem WInv_of_write_fields_eq (st st' : CommState)
    (hq : st'.write_queue = st.write_queue)
    (hw : st'.write_in_progress = st.write_in_progress)
    (ho : st'.outstanding_writes = st.outstanding_writes)
    (hi : st'.issued = st.issued)
    (ht : st'.transferred = st.transferred)
    (h : WInv st) : WInv st' := by
  unfold WInv at h ⊢
  rw [hq, hw, ho, hi, ht]
  exact h

theorem goodTrace_accounting (N : Nat) (hN : 0 < N) :
    ∀ (tr : List Ev) (st : CommState), goodTrace N st tr = true → WInv st →
      WInv (runTrace N st tr) ∧
      (runTrace N st tr).transferred.flatten
          ++ pendingBytes (runTrace N st tr)
        = st.transferred.flatten ++ pendingBytes st ++ sentBytes tr := by
  intro tr
  induction tr with
  | nil =>
    intro st _ h
    exact ⟨h, by simp [runTrace, sentBytes]⟩
  | cons e tr ih =>
    intro st hg hinv
    simp only [goodTrace, Bool.and_eq_true] at hg
    obtain ⟨he, htr⟩ := hg
    cases e with
    | send bs =>
      obtain ⟨hinv', htrf, hpend⟩ := WInv_send N hN bs st hinv
      obtain ⟨hI, hacc⟩ := ih (send_bytes N bs st) htr hinv'
      refine ⟨hI, ?_⟩
      show (runTrace N (send_bytes N bs st) tr).transferred.flatten
          ++ pendingBytes (runTrace N (send_bytes N bs st) tr)
        = st.transferred.flatten ++ pendingBytes st
            ++ sentBytes (Ev.send bs :: tr)
      rw [hacc, htrf, hpend]
      show _ = st.transferred.flatten ++ pendingBytes st
          ++ (bs ++ sentBytes tr)
      simp [List.append_assoc]
    | wcomplete err n =>
      simp only [goodWriteEv, Bool.and_eq_true, Bool.not_eq_true',
        decide_eq_true_eq] at he
      obtain ⟨⟨herr, hout⟩, hmatch⟩ := he
      subst herr
      rcases hq : st.write_queue with _ | ⟨b, rest⟩
      · rw [hq] at hmatch
        cases hmatch
      · rw [hq] at hmatch
        have hn : n = b.nbytes := by
          exact of_decide_eq_true hmatch
        obtain ⟨hinv', hacc1⟩ := WInv_wcomplete n st hinv hout b rest hq hn
        obtain ⟨hI, hacc⟩ := ih (async_write_end false n st) htr hinv'
        refine ⟨hI, ?_⟩
        show (runTrace N (async_write_end false n st) tr).transferred.flatten
            ++ pendingBytes (runTrace N (async_write_end false n st) tr)
          = st.transferred.flatten ++ pendingBytes st
              ++ sentBytes (Ev.wcomplete false n :: tr)
        rw [hacc, hacc1]
        rfl
    | rcomplete err bs =>
      obtain ⟨rq, nd, ra, e', hsh⟩ := async_read_end_shape err bs st
      have hinv' : WInv (async_read_end err bs st) :=
        WInv_of_write_fields_eq st _ (by rw [hsh]) (by rw [hsh])
          (by rw [hsh]) (by rw [hsh]) (by rw [hsh]) hinv
      obtain ⟨hI, hacc⟩ := ih (async_read_end err bs st) htr hinv'
      refine ⟨hI, ?_⟩
      show (runTrace N (async_read_end err bs st) tr).transferred.flatten
          ++ pendingBytes (runTrace N (async_read_end err bs st) tr)
        = st.transferred.flatten ++ pendingBytes st
            ++ sentBytes (Ev.rcomplete err bs :: tr)
      rw [hacc]
      have ht1 : (async_read_end err bs st).transferred = st.transferred := by
        rw [hsh]
      have ht2 : pendingBytes (async_read_end err bs st) = pendingBytes st := by
        unfold pendingBytes
        rw [hsh]
      rw [ht1, ht2]
      rfl
    | cbIter =>
      obtain ⟨d, rq, nd, hsh⟩ := process_callbacks_iter_shape st
      have hinv' : WInv (process_callbacks_iter st) :=
        WInv_of_write_fields_eq st _ (by rw [hsh]) (by rw [hsh])
          (by rw [hsh]) (by rw [hsh]) (by rw [hsh]) hinv
      obtain ⟨hI, hacc⟩ := ih (process_callbacks_iter st) htr hinv'
      refine ⟨hI, ?_⟩
      show (runTrace N (process_callbacks_iter st) tr).transferred.flatten
          ++ pendingBytes (runTrace N (process_callbacks_iter st) tr)
        = st.transferred.flatten ++ pendingBytes st
            ++ sentBytes (Ev.cbIter :: tr)
      rw [hacc]
      have ht1 : (process_callbacks_iter st).transferred = st.transferred := by
        rw [hsh]
      have ht2 : pendingBytes (process_callbacks_iter st)
          = pendingBytes st := by
        unfold pendingBytes
        rw [hsh]
      rw [ht1, ht2]
      rfl

/-- C1: chunking is transparent: for every chunk size `N > 0` and every
error-free trace of `send` calls and full write completions that ends with
the write pipeline drained, the byte strings handed to the transport's
asynchronous write operation, concatenated in completion order, equal the
concatenation of the sent payloads (with at most one write outstanding,
completion order is issue order). -/
theorem claim_C1_chunking_transparent (N : Nat) (tr : List Ev) (hN : 0 < N)
    (htr : goodTrace N initState tr = true)
    (hend : (runTrace N initState tr).write_in_progress = false) :
    (runTrace N initState tr).issued.flatten = sentBytes tr := by
  have hinit : WInv initState := by
    refine ⟨?_, ?_, ?_⟩
    · intro b hb
      simp [initState] at hb
    · intro _
      exact ⟨rfl, rfl, rfl⟩
    · intro h'
      simp [initState] at h'
  obtain ⟨hinv, hacc⟩ := goodTrace_accounting N hN tr initState htr hinit
  obtain ⟨hq, how, hiss⟩ := hinv.2.1 hend
  rw [hiss]
  have hp : pendingBytes (runTrace N initState tr) = [] := by
    unfold pendingBytes
    rw [hq]
    rfl
  rw [hp, List.append_nil] at hacc
  rw [hacc]
  simp [initState, pendingBytes]

theorem claim_C1_chunking_transparent_witness :
    (0 < 2 ∧
     goodTrace 2 initState
       [Ev.send [1, 2, 3], Ev.wcomplete false 2, Ev.wcomplete false 1]
         = true ∧
     (runTrace 2 initState
       [Ev.send [1, 2, 3], Ev.wcomplete false 2,
        Ev.wcomplete false 1]).write_in_progress = false) ∧
    (runTrace 2 initState
       [Ev.send [1, 2, 3], Ev.wcomplete false 2,
        Ev.wcomplete false 1]).issued.flatten
      = sentBytes [Ev.send [1, 2, 3], Ev.wcomplete false 2,
          Ev.wcomplete false 1] :=
  ⟨⟨by decide, by decide, by decide⟩,
   claim_C1_chunking_transparent 2
     [Ev.send [1, 2, 3], Ev.wcomplete false 2, Ev.wcomplete false 1]
     (by decide) (by decide) (by decide)⟩

/-- C3: in every state reachable by a valid trace, at most one asynchronous
write operation is outstanding against the transport; moreover the kick
entered from `send` (external entry point, `async_write(true)`) is a no-op
whenever the in-flight flag is set, while the kick entered from the
write-completion handler (`async_write(false)`) re-evaluates the queue and
issues the front remainder regardless of the flag. -/
theorem claim_C3_single_outstanding_write (N : Nat) (tr : List Ev)
    (htr : traceOk N initState tr = true) :
    (runTrace N initState tr).outstanding_writes ≤ 1 ∧
    (∀ st : CommState,
      async_write true { st with write_in_progress := true }
        = { st with write_in_progress := true }) ∧
    (∀ (st : CommState) (b : WriteBuffer) (rest : List WriteBuffer),
      (async_write false { st with write_queue := b :: rest }).issued
          = st.issued ++ [b.remainder] ∧
      (async_write false
          { st with write_queue := b :: rest }).write_in_progress = true) := by
  refine ⟨?_, ?_, ?_⟩
  · exact (OInv_runTrace N tr initState htr
      ⟨fun _ => rfl, Nat.zero_le 1⟩).2
  · intro st
    simp [async_write]
  · intro st b rest
    constructor <;> simp [async_write]

theorem claim_C3_single_outstanding_write_witness :
    traceOk 3 initState [Ev.send [1, 2], Ev.wcomplete false 2] = true ∧
    (runTrace 3 initState
        [Ev.send [1, 2], Ev.wcomplete false 2]).outstanding_writes ≤ 1 :=
  ⟨by decide,
   (claim_C3_single_outstanding_write 3
      [Ev.send [1, 2], Ev.wcomplete false 2] (by decide)).1⟩

theorem async_read_end_ok_eq (bs : List Nat) (st : CommState) :
    async_read_end false bs st
      = async_read { st with read_armed := false,
                             read_queue := st.read_queue ++ [⟨bs⟩],
                             new_data := true } := rfl

theorem read_accounting (N : Nat) :
    ∀ (tr : List Ev) (st : CommState),
      (runTrace N st tr).delivered
          ++ (runTrace N st tr).read_queue.map ReadBuffer.data
        = st.delivered ++ st.read_queue.map ReadBuffer.data
            ++ receivedPayloads tr := by
  intro tr
  induction tr with
  | nil =>
    intro st
    simp [runTrace, receivedPayloads]
  | cons e tr ih =>
    intro st
    cases e with
    | send bs =>
      have hrec := ih (send_bytes N bs st)
      obtain ⟨wq, wip, ow, iss, hsh⟩ := send_bytes_shape N bs st
      show (runTrace N (send_bytes N bs st) tr).delivered
          ++ (runTrace N (send_bytes N bs st) tr).read_queue.map
              ReadBuffer.data = _
      rw [hrec, hsh]
      rfl
    | wcomplete err n =>
      have hrec := ih (async_write_end err n st)
      obtain ⟨q, wip, ow, iss, trf, e', hsh⟩ := async_write_end_shape err n st
      show (runTrace N (async_write_end err n st) tr).delivered
          ++ (runTrace N (async_write_end err n st) tr).read_queue.map
              ReadBuffer.data = _
      rw [hrec, hsh]
      rfl
    | rcomplete err bs =>
      cases err with
      | true =>
        have hrec := ih (async_read_end true bs st)
        have heq : async_read_end true bs st
            = { st with read_armed := false, error := true } := by
          simp [async_read_end]
        show (runTrace N (async_read_end true bs st) tr).delivered
            ++ (runTrace N (async_read_end true bs st) tr).read_queue.map
                ReadBuffer.data = _
        rw [hrec, heq]
        rfl
      | false =>
        have hrec := ih (async_read_end false bs st)
        obtain ⟨ra, hra⟩ := async_read_shape
          { st with read_armed := false,
                    read_queue := st.read_queue ++ [⟨bs⟩], new_data := true }
        show (runTrace N (async_read_end false bs st) tr).delivered
            ++ (runTrace N (async_read_end false bs st) tr).read_queue.map
                ReadBuffer.data = _
        rw [hrec, async_read_end_ok_eq bs st, hra]
        simp [receivedPayloads]
    | cbIter =>
      have hrec := ih (process_callbacks_iter st)
      cases hcs : st.callback_shutdown with
      | true =>
        have heq : process_callbacks_iter st = st := by
          simp [process_callbacks_iter, hcs]
        show (runTrace N (process_callbacks_iter st) tr).delivered
            ++ (runTrace N (process_callbacks_iter st) tr).read_queue.map
                ReadBuffer.data = _
        rw [hrec, heq]
        rfl
      | false =>
        have heq : process_callbacks_iter st
            = { st with
                  delivered :=
                    st.delivered ++ st.read_queue.map ReadBuffer.data,
                  read_queue := [], new_data := false } := by
          simp [process_callbacks_iter, hcs]
        show (runTrace N (process_callbacks_iter st) tr).delivered
            ++ (runTrace N (process_callbacks_iter st) tr).read_queue.map
                ReadBuffer.data = _
        rw [hrec, heq]
        simp [receivedPayloads]

/-- C4: for every valid trace from the running state, the payloads the
callback loop has delivered, followed by those still queued, equal exactly
the successful read payloads in arrival order — so with a single registered
callback, the callback fires once per completed chunk, in order, with
byte-exact payloads; moreover each wake-up with shutdown not requested
moves the entire read queue into the local working list, clears the
new-data flag, and (per its action trace) releases the callback lock before
any callback invocation. -/
theorem claim_C4_callback_dispatch (N : Nat) (tr : List Ev)
    (htr : traceOk N runningState tr = true) :
    (runTrace N runningState tr).delivered
        ++ (runTrace N runningState tr).read_queue.map ReadBuffer.data
      = receivedPayloads tr ∧
    (∀ st : CommState,
      process_callbacks_iter { st with callback_shutdown := false }
        = { st with callback_shutdown := false,
                    delivered :=
                      st.delivered ++ st.read_queue.map ReadBuffer.data,
                    read_queue := [], new_data := false } ∧
      process_callbacks_iter_actions { st with callback_shutdown := false }
        = [.splice_queue, .clear_new_data, .unlock_cb_lock]
            ++ st.read_queue.map (fun b => CAct.invoke_cb b.data)) := by
  constructor
  · have h := read_accounting N tr runningState
    simpa [runningState, openedState, initState, async_read] using h
  · intro st
    constructor
    · simp [process_callbacks_iter]
    · simp [process_callbacks_iter_actions]

theorem claim_C4_callback_dispatch_witness :
    traceOk 2 runningState
      [Ev.rcomplete false [7, 8], Ev.cbIter, Ev.rcomplete false [9]]
        = true ∧
    (runTrace 2 runningState
        [Ev.rcomplete false [7, 8], Ev.cbIter,
         Ev.rcomplete false [9]]).delivered
        ++ (runTrace 2 runningState
            [Ev.rcomplete false [7, 8], Ev.cbIter,
             Ev.rcomplete false [9]]).read_queue.map ReadBuffer.data
      = receivedPayloads
          [Ev.rcomplete false [7, 8], Ev.cbIter, Ev.rcomplete false [9]] :=
  ⟨by decide,
   (claim_C4_callback_dispatch 2
      [Ev.rcomplete false [7, 8], Ev.cbIter, Ev.rcomplete false [9]]
      (by decide)).1⟩

/-- C5 counterexample: the claim orders the supervisor teardown as stop the
event loop, then join the io thread, then signal callback shutdown, then
join the callback thread; but in `Comm::run` both actions occur and the
callback-shutdown request strictly precedes the io-thread join, so the
io-thread join does not come second and the claimed strict order is false
for the concrete action trace of `Comm::run`. -/
theorem claim_C5_counterexample :
    LAct.set_callback_shutdown ∈ run_actions true true ∧
    LAct.join_io_thread ∈ run_actions true true ∧
    (run_actions true true).indexOf LAct.set_callback_shutdown
      < (run_actions true true).indexOf LAct.join_io_thread := by
  decide

/-- C5 (amended): the supervisor teardown of `Comm::run` is strictly
ordered: after the terminal wait it stops the event loop, then sets
callback-shutdown-requested and wakes the callback thread, then joins the
io thread, then joins the callback thread; the callback-thread join is the
final action before the supervisor exits. -/
theorem claim_C5_shutdown_order :
    (run_actions true true).indexOf LAct.wait_terminal
      < (run_actions true true).indexOf LAct.stop_event_loop ∧
    (run_actions true true).indexOf LAct.stop_event_loop
      < (run_actions true true).indexOf LAct.set_callback_shutdown ∧
    (run_actions true true).indexOf LAct.set_callback_shutdown
      < (run_actions true true).indexOf LAct.notify_callback_thread ∧
    (run_actions true true).indexOf LAct.notify_callback_thread
      < (run_actions true true).indexOf LAct.join_io_thread ∧
    (run_actions true true).indexOf LAct.join_io_thread
      < (run_actions true true).indexOf LAct.join_callback_thread ∧
    (run_actions true true).getLast? = some LAct.join_callback_thread := by
  decide

/-- C6: on a successful read completion with the transport open, the handler
appends a fresh copy of the received bytes to the read queue, sets the
new-data flag, wakes the callback thread, and only then arms the next read;
its action trace contains nothing else, so the next read is armed before any
processing of the received bytes other than the copy. -/
theorem claim_C6_read_completion_order (st : CommState) (bytes : List Nat) :
    async_read_end false bytes { st with transport_open := true }
      = { st with transport_open := true,
                  read_queue := st.read_queue ++ [⟨bytes⟩],
                  new_data := true,
                  read_armed := true } ∧
    async_read_end_actions false true bytes
      = [.copy_enqueue bytes, .set_new_data, .notify_callback, .arm_read] := by
  constructor
  · simp [async_read_end, async_read]
  · rfl

/-- C7: a read or write completion that reports a transport error sets the
error flag under the supervisor lock, wakes the supervisor, and stops: the
erroring write handler's action trace ends at the supervisor notification
(no queue access, no further write), it leaves the write queue untouched
and issues nothing further (also when the queue is non-empty), and the
erroring read handler's action trace likewise ends at the supervisor
notification, so it does not arm another read. -/
theorem claim_C7_error_completions (st : CommState) (n : Nat)
    (bytes : List Nat) (is_open : Bool) :
    async_write_end true n st
      = { st with outstanding_writes := st.outstanding_writes - 1,
                  error := true } ∧
    async_write_end_actions true n st
      = [.log_error, .set_error, .notify_main] ∧
    async_read_end true bytes st
      = { st with read_armed := false, error := true } ∧
    async_read_end_actions true is_open bytes
      = [.log_error, .set_error, .notify_main] := by
  refine ⟨async_write_end_err_eq n st, rfl, ?_, rfl⟩
  simp [async_read_end]

/-- C8: when the transport's open hook fails, `init` returns failure and
starts no thread — the state is exactly the construction state, in which no
supervisor, io or callback thread exists; when the hook succeeds, `init`
starts the supervisor thread and returns success. -/
theorem claim_C8_init_failure (st : CommState) :
    Comm_init false initState = (false, initState) ∧
    initState.main_joinable = false ∧
    initState.io_joinable = false ∧
    initState.callback_joinable = false ∧
    Comm_init true st
      = (true, { st with transport_open := true, main_joinable := true }) :=
  ⟨rfl, rfl, rfl, rfl, rfl⟩

/-- C9: `close` and destruction are idempotent on an already-closed
channel: a second `close` leaves the state unchanged and performs no
thread join (the supervisor thread is no longer joinable, and the shutdown
step joins it only when joinable), and likewise a destructor-driven
`shutdown` after a `close` performs no join. -/
theorem claim_C9_close_idempotent (st : CommState) :
    (Comm_close (Comm_close st).1).1 = (Comm_close st).1 ∧
    (Comm_close (Comm_close st).1).2
      = [.stop_event_loop, .transport_close, .set_shutdown_req,
         .notify_main_thread] ∧
    (Comm_shutdown (Comm_close st).1).1 = (Comm_close st).1 ∧
    (Comm_shutdown (Comm_close st).1).2
      = [.set_shutdown_req, .notify_main_thread] := by
  obtain ⟨wq, wip, rq, nd, e, sr, cbs, topen, mj, ioj, cj, ra, ow, iss, trf, d⟩
    := st
  cases mj <;> simp [Comm_close, Comm_shutdown]

/-- C10: a successful write completion that finds the write queue empty
clears the in-flight flag and returns: the result state differs from the
entry state only in the cleared flag (and the retired outstanding write),
so no front element of the empty queue is ever read and nothing further is
issued or recorded. -/
theorem claim_C10_empty_queue_completion (st : CommState) (n : Nat) :
    async_write_end false n { st with write_queue := [] }
      = { st with write_queue := [],
                  write_in_progress := false,
                  outstanding_writes := st.outstanding_writes - 1 } := by
  simp [async_write_end]

end AsyncComm
